import Mathlib

/-!
Verification of the holdings-view backend core logic.

This file shallowly embeds the core computations of the repository in Lean 4
and proves properties of them against the natural-language specification:

* `get_stock_info` (src/api/utils/utils.py, duplicated in src/api/stock_api.py):
  quote normalization — price/previous-close resolution, change and
  change-percent computation, session-dependent pre/post-market pricing.
* `calculate_sma_values` (same files): simple moving averages over the fixed
  window set [20, 50, 100, 150, 200].
* the period/interval reconciliation inside `get_history`
  (src/api/routes/routes.py, duplicated in src/api/stock_api.py).
* `get_portfolio` valuation/aggregation with partial quote failures.
* holdings persistence operations: `delete_holding`, `reorder_portfolio`,
  `upload_portfolio`.

Outbound provider data (yfinance) and the per-owner persistence store are
modelled as explicit inputs; machine floats become exact rationals; Python
dicts become association lists; raised exceptions become `Except` errors.
-/

/-! ## Python-truthiness helpers

Python `a or b` returns `b` whenever `a` is falsy (`None`, `0`, `""`),
otherwise `a`.  The source code uses this idiom pervasively
(`info.get("currentPrice") or info.get("regularMarketPrice") or ...`),
so we model it exactly rather than with `Option.orElse`. -/

/-- Python `x or y` on optional numbers: `None` and `0` are falsy. -/
def pyOrQ (x y : Option ℚ) : Option ℚ :=
  match x with
  | some v => if v = 0 then y else some v
  | none => y

/-- Python `x or y` where `y` is a plain string: `None` and `""` are falsy. -/
def pyOrS (x : Option String) (y : String) : String :=
  match x with
  | some s => if s = "" then y else s
  | none => y

/-- Python `s.lower()`, modelled character-wise (the quote-type strings of
the provider are ASCII). -/
def pyLower (s : String) : String := ⟨s.data.map Char.toLower⟩

/-- Python `s.endswith('d')`. -/
def pyEndsWithD (s : String) : Bool := s.data.getLast? = some 'd'

/-- Python `s[:-1]`. -/
def pyDropLast (s : String) : String := ⟨s.data.dropLast⟩

/-- Python `int(s)` restricted to plain digit strings, as a parse that
fails (raises `ValueError`, i.e. returns `none`) on anything else. -/
def pyParseNat (s : String) : Option ℕ :=
  if s.data ≠ [] ∧ s.data.all (fun c => c.isDigit) then
    some (s.data.foldl (fun acc c => acc * 10 + (c.toNat - 48)) 0)
  else none

/-- Association-list lookup, modelling Python `d[k]` / `k in d` on the
string-keyed dict literals of the source. -/
def dictLookup {β : Type} : List (String × β) → String → Option β
  | [], _ => none
  | (a, b) :: rest, k => if a = k then some b else dictLookup rest k

/-! ## Quote normalizer (`get_stock_info`)

Mirrors `get_stock_info` in src/api/utils/utils.py lines 12-76 (the copy in
src/api/stock_api.py lines 134-198 is character-identical in logic).  The
yfinance ticker's observable data is captured in `TickerData`:
`histCloses` is the Close column of `stock.history(period="2d")`,
the `info…` fields are the entries read from `stock.info`
(`none` = key absent / value `None`), `infoPresent` is the truthiness of the
`info` dict itself, and `minuteCloses` is the Close column of
`stock.history(period="1d", interval="1m", prepost=True, auto_adjust=False)`
used for the post-market price. -/

structure TickerData where
  histCloses : List ℚ
  infoPresent : Bool
  infoCurrentPrice : Option ℚ
  infoRegularMarketPrice : Option ℚ
  infoPreviousClose : Option ℚ
  infoPreMarketPrice : Option ℚ
  infoMarketState : Option String
  infoQuoteType : Option String
  infoShortName : Option String
  infoLongName : Option String
  infoMarketCap : Option ℚ
  infoRegularMarketVolume : Option ℚ
  infoVolume : Option ℚ
  minuteCloses : List ℚ
deriving DecidableEq

/-- Failure modes of `get_stock_info`: the two HTTP 404 raises, and the
`IndexError` from `data.tail(1)["Close"].iloc[0]` on an empty minute
history in the POST branch. -/
inductive StockError
  | noData
  | noPrice
  | emptyTail
deriving DecidableEq

/-- Resolution of (current price, previous close), utils.py lines 18-47.
In the non-empty-history branch `current_price = hist['Close'].iloc[-1]`
and `previous_close = hist['Close'].iloc[0] if len(hist) > 1 else
current_price`; in the empty branch the metadata fallback chains run, with
the later `if current_price is None` / `if previous_close is None` blocks
inlined (history-derived prices are plain floats, so those blocks are only
reachable from the empty-history branch). -/
def resolvePrices (t : TickerData) : Except StockError (ℚ × ℚ) :=
  match t.histCloses with
  | [] =>
    if t.infoPresent = false ∨ t.infoRegularMarketPrice = none then
      .error .noData
    else
      let cp0 := pyOrQ t.infoCurrentPrice (pyOrQ t.infoRegularMarketPrice t.infoPreviousClose)
      match cp0 with
      | some c =>
        match pyOrQ t.infoPreviousClose (some c) with
        | some p => .ok (c, p)
        | none => .ok (c, c)
      | none =>
        if t.infoPresent then
          match pyOrQ t.infoCurrentPrice (pyOrQ t.infoRegularMarketPrice t.infoPreviousClose) with
          | none => .error .noPrice
          | some c =>
            match pyOrQ t.infoPreviousClose (some c) with
            | some p => .ok (c, p)
            | none => .ok (c, c)
        else .error .noData
  | c0 :: rest =>
    let c := (c0 :: rest).getLast (List.cons_ne_nil c0 rest)
    let p := if 1 < rest.length + 1 then c0 else c
    .ok (c, p)

/-- `determine_asset_type`, utils.py lines 78-83:
`info.get("quoteType", "").lower()` mapped over a closed set. -/
def determine_asset_type (quoteType : Option String) : String :=
  let qt := pyLower (quoteType.getD "")
  if qt = "etf" then "etf"
  else if qt = "cryptocurrency" then "crypto"
  else "stock"

/-- Session-dependent pre/post-market prices, utils.py lines 55-62.
Both start as `None`; exactly one branch runs. The POST branch reads the
last Close of the prepost minute history and raises `IndexError` when that
frame is empty. -/
def computePrePost (t : TickerData) : Except StockError (Option ℚ × Option ℚ) :=
  if t.infoMarketState = some "PRE" then
    .ok (t.infoPreMarketPrice, none)
  else if t.infoMarketState = some "POST" then
    match t.minuteCloses.getLast? with
    | some v => .ok (none, some v)
    | none => .error .emptyTail
  else .ok (some 0, some 0)

/-- The normalized quote record returned by `get_stock_info`
(utils.py lines 64-76). -/
structure Quote where
  symbol : String
  name : String
  price : ℚ
  change : ℚ
  changePercent : ℚ
  marketCap : Option ℚ
  volume : Option ℚ
  type : String
  preMarketPrice : Option ℚ
  postMarketPrice : Option ℚ
  marketState : Option String
deriving DecidableEq

/-- `get_stock_info(symbol)`, utils.py lines 12-76, as a function of the
ticker's observable data. `change = current - previous`;
`change_percent = (change / previous_close) * 100 if previous_close else 0`
(Python truthiness: a previous close of exactly 0 selects the 0 branch). -/
def get_stock_info (symbol : String) (t : TickerData) : Except StockError Quote :=
  match resolvePrices t with
  | .error e => .error e
  | .ok (c, p) =>
    let change := c - p
    let changePercent := if p ≠ 0 then change / p * 100 else 0
    match computePrePost t with
    | .error e => .error e
    | .ok (pre, post) =>
      .ok { symbol := symbol
            name := pyOrS t.infoShortName (pyOrS t.infoLongName symbol)
            price := c
            change := change
            changePercent := changePercent
            marketCap := t.infoMarketCap
            volume := pyOrQ t.infoRegularMarketVolume t.infoVolume
            type := determine_asset_type t.infoQuoteType
            preMarketPrice := pre
            postMarketPrice := post
            marketState := t.infoMarketState }

/-! ## Moving-average calculator (`calculate_sma_values`)

Mirrors `calculate_sma_values` in src/api/utils/utils.py lines 86-112: for
each window `w` in [20, 50, 100, 150, 200], if the input has at least `w`
points, the output is `(w-1)` `None`s followed by the means of each
`w`-wide slice `close_values[i:i+w]`; otherwise it is all-`None` of the
input length.  (The copy in src/api/stock_api.py computes the same windowed
means via `np.convolve(closes, ones(w)/w, mode='valid')`.) -/

/-- One window of the SMA computation (the loop body of
`calculate_sma_values` for a fixed `period`). -/
def smaWindow (closes : List ℚ) (w : ℕ) : List (Option ℚ) :=
  if w ≤ closes.length then
    List.replicate (w - 1) none ++
      (List.range (closes.length - w + 1)).map
        (fun i => some ((((closes.drop i).take w).sum) / (w : ℚ)))
  else
    List.replicate closes.length none

/-- `calculate_sma_values(close_values)`: the result dict keyed
`"sma20"`, …, `"sma200"`. -/
def calculate_sma_values (closes : List ℚ) : List (String × List (Option ℚ)) :=
  [20, 50, 100, 150, 200].map (fun p => ("sma" ++ toString p, smaWindow closes p))

/-! ## Period/interval reconciliation (`get_history`)

Mirrors the adjustment logic of `get_history` in src/api/routes/routes.py
lines 449-572 (the copy in src/api/stock_api.py lines 633-755 is identical
in logic).  The yfinance fetch is an explicit input `fetchHistory`
returning the Close series for an (effective period, interval) pair. -/

/-- The `max_periods` dict, routes.py lines 462-476: each interval's
maximum allowed period string (`"max"` = uncapped). -/
def max_periods : List (String × String) :=
  [("1m", "7d"), ("2m", "60d"), ("5m", "60d"), ("15m", "60d"), ("30m", "60d"),
   ("60m", "730d"), ("90m", "60d"), ("1h", "730d"),
   ("1d", "max"), ("5d", "max"), ("1wk", "max"), ("1mo", "max"), ("3mo", "max")]

/-- The `period_values` dict, routes.py lines 485-489: period string to day
count; `"ytd"` and `"max"` map to Python `None`. -/
def period_values : List (String × Option ℕ) :=
  [("1d", some 1), ("5d", some 5), ("7d", some 7), ("60d", some 60), ("90d", some 90),
   ("1mo", some 30), ("3mo", some 90), ("6mo", some 180), ("1y", some 365),
   ("2y", some 730), ("5y", some 1825), ("10y", some 3650),
   ("ytd", none), ("max", none)]

/-- The `period.endswith('d')` / `int(period[:-1])` fallback parse
(routes.py lines 495-499); digit-string day counts such as `"30d"`. -/
def parseDays (s : String) : Option ℕ :=
  if pyEndsWithD s then pyParseNat (pyDropLast s) else none

/-- Day-count resolution for one side of the comparison: dict lookup first,
then the `endswith('d')` parse (`elif`: not attempted when the dict has the
key, even with value `None`). -/
def resolveDays (p : String) : Option ℕ :=
  match dictLookup period_values p with
  | some v => v
  | none => parseDays p

/-- The reconciliation step of `get_history`, routes.py lines 478-521:
returns the effective period and the `period_adjusted` flag.  An interval
that is not a `max_periods` key skips the whole block; a numeric
comparison adjusts when requested > allowed; otherwise the conservative
string rule forces intraday intervals to their cap for any period outside
the known-safe set. -/
def reconcile (period interval : String) : String × Bool :=
  match dictLookup max_periods interval with
  | none => (period, false)
  | some maxPeriod =>
    if maxPeriod = "max" then (period, false)
    else
      match resolveDays period, resolveDays maxPeriod with
      | some rd, some md =>
        if md < rd then (maxPeriod, true) else (period, false)
      | _, _ =>
        if period ∉ (["1d", "5d", "7d", "60d"] : List String) ∧
            interval ∈ (["1m", "2m", "5m", "15m", "30m", "90m"] : List String)
        then (maxPeriod, true)
        else (period, false)

/-- Failure mode of the modelled `get_history`: the HTTP 404 on an empty
fetched history (routes.py lines 530-532). -/
inductive HistError
  | emptyHist
deriving DecidableEq

/-- The `get_history` response record (routes.py lines 554-570): effective
period/interval echoed back, adjustment metadata present only when the
period was adjusted, SMA dict present only when requested and computed. -/
structure HistoryResponse where
  symbol : String
  history : List ℚ
  period : String
  interval : String
  adjusted : Option Bool
  requestedPeriod : Option String
  actualPeriod : Option String
  message : Option String
  sma : Option (List (String × List (Option ℚ)))
deriving DecidableEq

/-- `get_history(symbol, period, interval)`, routes.py lines 449-572, with
the provider fetch abstracted as `fetchHistory effectivePeriod interval`
(the Close series of the returned rows) and the `calculate_sma` query flag
as a Bool. -/
def get_history (symbol period interval : String)
    (fetchHistory : String → String → List ℚ) (calcSma : Bool) :
    Except HistError HistoryResponse :=
  let er := reconcile period interval
  let eff := er.1
  let adjusted := er.2
  let hist := fetchHistory eff interval
  if hist = [] then .error .emptyHist
  else
    let sma := if calcSma = true ∧ 0 < hist.length
               then some (calculate_sma_values hist) else none
    .ok { symbol := symbol
          history := hist
          period := eff
          interval := interval
          adjusted := if adjusted then some true else none
          requestedPeriod := if adjusted then some period else none
          actualPeriod := if adjusted then some eff else none
          message := if adjusted then
              some ("Adjusted period from " ++ period ++ " to " ++ eff ++
                " due to " ++ interval ++ " interval limitations")
            else none
          sma := sma }

/-! ## Portfolio valuation aggregator (`get_portfolio`)

Mirrors `get_portfolio` in src/api/routes/routes.py lines 55-154 (identical
logic in src/api/stock_api.py lines 355-453).  The per-owner holdings come
in position order from the DB query; the per-symbol quote fetch
(`get_stock_info`, which may raise) is abstracted as a
`String → Except StockError Quote` input. -/

/-- A persisted holding row (`HoldingDB`): the composite primary key
(user_id, symbol) makes symbols unique per owner. -/
structure Holding where
  symbol : String
  shares : ℚ
  averageCost : ℚ
  position : ℕ
deriving DecidableEq

/-- One enriched holding of the portfolio response (routes.py lines 87-102
on success, lines 116-126 on failure). -/
structure EnrichedHolding where
  symbol : String
  shares : ℚ
  averageCost : ℚ
  name : String
  currentPrice : Option ℚ
  change : Option ℚ
  changePercent : Option ℚ
  value : Option ℚ
  gain : Option ℚ
  gainPercent : Option ℚ
  type : Option String
  preMarketPrice : Option ℚ
  postMarketPrice : Option ℚ
  marketState : Option String
deriving DecidableEq

/-- The summary block of the portfolio response (routes.py lines 143-152). -/
structure PortfolioSummary where
  totalValue : ℚ
  totalGain : ℚ
  totalGainPercent : ℚ
  dayChange : ℚ
  dayChangePercent : ℚ
deriving DecidableEq

/-- The portfolio response. -/
structure PortfolioResponse where
  holdings : List EnrichedHolding
  summary : PortfolioSummary
deriving DecidableEq

/-- The successful loop-body entry (routes.py lines 69-102). -/
def successEntry (h : Holding) (q : Quote) : EnrichedHolding :=
  let value := h.shares * q.price
  { symbol := h.symbol
    shares := h.shares
    averageCost := h.averageCost
    name := q.name
    currentPrice := some q.price
    change := some q.change
    changePercent := some q.changePercent
    value := some value
    gain := some ((q.price - h.averageCost) * h.shares)
    gainPercent := some (if 0 < h.averageCost then (q.price / h.averageCost - 1) * 100 else 0)
    type := some q.type
    preMarketPrice := q.preMarketPrice
    postMarketPrice := q.postMarketPrice
    marketState := q.marketState }

/-- The failure placeholder entry (routes.py lines 116-126): every derived
numeric field nulled, name annotated with " (Data Error)". -/
def failEntry (h : Holding) : EnrichedHolding :=
  { symbol := h.symbol
    shares := h.shares
    averageCost := h.averageCost
    name := h.symbol ++ " (Data Error)"
    currentPrice := none
    change := none
    changePercent := none
    value := none
    gain := none
    gainPercent := none
    type := none
    preMarketPrice := none
    postMarketPrice := none
    marketState := none }

/-- The entry appended for one holding (try/except around the loop body). -/
def enrichEntry (fetch : String → Except StockError Quote) (h : Holding) :
    EnrichedHolding :=
  match fetch h.symbol with
  | .ok q => successEntry h q
  | .error _ => failEntry h

/-- One iteration of the portfolio loop: appends the entry and, on success
only, accumulates `day_change_value` and `start_value`
(routes.py lines 67-126). -/
def portfolioStep (fetch : String → Except StockError Quote)
    (acc : List EnrichedHolding × ℚ × ℚ) (h : Holding) :
    List EnrichedHolding × ℚ × ℚ :=
  match fetch h.symbol with
  | .ok q =>
    let value := h.shares * q.price
    let dayChangeValue := q.change * h.shares
    let startValue := value - dayChangeValue
    (acc.1 ++ [successEntry h q], acc.2.1 + dayChangeValue, acc.2.2 + startValue)
  | .error _ => (acc.1 ++ [failEntry h], acc.2.1, acc.2.2)

/-- `get_portfolio`, routes.py lines 55-154: loop over the position-ordered
holdings, then the summary.  `totalValue` sums the non-null `value` fields;
`totalCostBasis` sums `shares * averageCost` over all DB holdings. -/
def get_portfolio (db_holdings : List Holding)
    (fetch : String → Except StockError Quote) : PortfolioResponse :=
  let folded := db_holdings.foldl (portfolioStep fetch) ([], 0, 0)
  let updated_portfolio := folded.1
  let total_day_change_value := folded.2.1
  let total_start_value := folded.2.2
  let total_value := (updated_portfolio.filterMap (fun e => e.value)).sum
  let total_cost_basis := (db_holdings.map (fun h => h.shares * h.averageCost)).sum
  let total_gain := total_value - total_cost_basis
  let total_gain_percent := if 0 < total_cost_basis then total_gain / total_cost_basis * 100 else 0
  let day_change_percent := if 0 < total_start_value then total_day_change_value / total_start_value * 100 else 0
  { holdings := updated_portfolio
    summary := { totalValue := total_value
                 totalGain := total_gain
                 totalGainPercent := total_gain_percent
                 dayChange := total_day_change_value
                 dayChangePercent := day_change_percent } }

/-- The contribution of one holding to the summary's total value:
`shares * price` on fetch success, nothing on failure. -/
def valueContrib (fetch : String → Except StockError Quote) (h : Holding) : ℚ :=
  match fetch h.symbol with
  | .ok q => h.shares * q.price
  | .error _ => 0

/-- The contribution of one holding to the summary's day change:
`change * shares` on fetch success, nothing on failure. -/
def dayChangeContrib (fetch : String → Except StockError Quote) (h : Holding) : ℚ :=
  match fetch h.symbol with
  | .ok q => q.change * h.shares
  | .error _ => 0

/-- The contribution of one holding to the accumulated start-of-day value. -/
def startContrib (fetch : String → Except StockError Quote) (h : Holding) : ℚ :=
  match fetch h.symbol with
  | .ok q => h.shares * q.price - q.change * h.shares
  | .error _ => 0

/-! ## Holdings persistence operations

The per-owner slice of the holdings table is modelled as a `List Holding`
(row order immaterial; the endpoints re-derive display order from the
`position` column via `ORDER BY position`, modelled as a stable insertion
sort).  The composite primary key (user_id, symbol) means a well-formed
store has `Nodup` symbols; theorems that rely on row/symbol uniqueness
carry that as a hypothesis. -/

/-- `ORDER BY position` on an owner's holdings. -/
def orderByPosition (hs : List Holding) : List Holding :=
  List.insertionSort (fun a b => a.position ≤ b.position) hs

/-- The dense renumbering loop of `delete_holding`
(routes.py lines 205-207): `for i, h in enumerate(holdings): h.position = i`. -/
def renumber (hs : List Holding) : List Holding :=
  hs.enum.map (fun p => { p.2 with position := p.1 })

/-- `delete_holding(symbol)`, routes.py lines 195-214: 404 when the owner
has no such holding, else delete the row (unique by primary key) and
renumber the remaining holdings in position order. -/
def delete_holding (store : List Holding) (sym : String) :
    Except Unit (List Holding) :=
  if store.filter (fun h => h.symbol = sym) = [] then .error ()
  else .ok (renumber (orderByPosition (store.filter (fun h => h.symbol ≠ sym))))

/-- The loop of `reorder_portfolio` (routes.py lines 221-223) starting at
request index `k`: each listed symbol's holding (if owned) gets position
equal to the symbol's index in the request. -/
def applyReorderAux : List Holding → List String → ℕ → List Holding
  | st, [], _ => st
  | st, s :: rest, k =>
    applyReorderAux (st.map (fun h => if h.symbol = s then { h with position := k } else h)) rest (k + 1)

/-- `reorder_portfolio(orderedSymbols)`, routes.py lines 216-226.  Symbols
absent from the request keep their previous positions; requested symbols
not owned are skipped. -/
def applyReorder (store : List Holding) (orderedSymbols : List String) : List Holding :=
  applyReorderAux store orderedSymbols 0

/-- Index of the last occurrence of `s` in `l` (the surviving assignment of
the reorder loop when a symbol repeats). -/
def lastPos : List String → String → Option ℕ
  | [], _ => none
  | a :: rest, s =>
    match lastPos rest s with
    | some j => some (j + 1)
    | none => if a = s then some 0 else none

/-- The position invariant: the multiset of positions of an owner's
holdings is exactly {0, …, N-1}. -/
def positionsContiguous (hs : List Holding) : Prop :=
  (hs.map (fun h => h.position)).Perm (List.range hs.length)

/-- The body of a bulk-upload request (`HoldingCreate` rows). -/
structure HoldingCreate where
  symbol : String
  shares : ℚ
  averageCost : ℚ
deriving DecidableEq

/-- Failure modes of `upload_portfolio`: the two HTTP 400 rejections
(routes.py lines 232-239), both raised before any persistence mutation. -/
inductive UploadError
  | noData
  | duplicateSymbols
deriving DecidableEq

/-- `upload_portfolio(holdings)`, routes.py lines 228-266: reject empty
input, reject duplicate symbols (`len({h.symbol for h in holdings}) !=
len(holdings)`), else overwrite the owner's store with the uploaded rows
positioned 0..N-1 in upload order. -/
def upload_portfolio (upload : List HoldingCreate) :
    Except UploadError (List Holding) :=
  if upload = [] then .error .noData
  else if ((upload.map (fun h => h.symbol)).dedup).length ≠ upload.length then
    .error .duplicateSymbols
  else
    .ok (upload.enum.map (fun p =>
      { symbol := p.2.symbol, shares := p.2.shares,
        averageCost := p.2.averageCost, position := p.1 }))

/-- The owner's store after an upload request: replaced on success
(`DELETE` + `add_all` inside one transaction), untouched on rejection or
rollback. -/
def uploadStep (store : List Holding) (upload : List HoldingCreate) : List Holding :=
  match upload_portfolio upload with
  | .ok ns => ns
  | .error _ => store

/-! ## Concrete witness inputs -/

/-- A ticker with a two-point price history and no session state, used to
witness the quote theorems on concrete data. -/
def tickerWitness : TickerData :=
  { histCloses := [10, 12]
    infoPresent := true
    infoCurrentPrice := none
    infoRegularMarketPrice := none
    infoPreviousClose := none
    infoPreMarketPrice := none
    infoMarketState := none
    infoQuoteType := none
    infoShortName := some "Apple"
    infoLongName := none
    infoMarketCap := none
    infoRegularMarketVolume := none
    infoVolume := none
    minuteCloses := [] }

/-- The quote `get_stock_info` produces for `tickerWitness`. -/
def quoteWitness : Quote :=
  { symbol := "AAPL"
    name := "Apple"
    price := 12
    change := 2
    changePercent := 20
    marketCap := none
    volume := none
    type := "stock"
    preMarketPrice := some 0
    postMarketPrice := some 0
    marketState := none }

/-- A ticker in the PRE session, used to witness the pre/post sentinel
theorem. -/
def tickerWitnessPre : TickerData :=
  { tickerWitness with infoMarketState := some "PRE", infoPreMarketPrice := some 11 }

/-- The quote `get_stock_info` produces for `tickerWitnessPre`. -/
def quoteWitnessPre : Quote :=
  { quoteWitness with
    preMarketPrice := some 11
    postMarketPrice := none
    marketState := some "PRE" }

/-- A 20-point close series used to witness the SMA theorem. -/
def smaCloses : List ℚ :=
  [0, 1, 2, 3, 4, 5, 6, 7, 8, 9, 10, 11, 12, 13, 14, 15, 16, 17, 18, 19]

/-- Concrete holdings used to witness the portfolio and persistence
theorems. -/
def holdingA : Holding := { symbol := "A", shares := 2, averageCost := 5, position := 0 }

/-- Second concrete holding (the one whose quote fetch fails). -/
def holdingB : Holding := { symbol := "B", shares := 3, averageCost := 4, position := 1 }

/-- Third concrete holding. -/
def holdingC : Holding := { symbol := "C", shares := 1, averageCost := 8, position := 2 }

/-- A quote fetch that fails for symbol "B" and succeeds with
`quoteWitness` (price 12, change 2) for everything else. -/
def fetchWitness : String → Except StockError Quote :=
  fun s => if s = "B" then .error .noData else .ok quoteWitness

/-! # Theorems -/

/-- C1: For every quote produced by `get_stock_info`: when the resolved
previous close `p` is nonzero, `changePercent = (price - p) / p * 100`;
when `p` is zero, `changePercent = 0` — the division is never performed on
a zero previous close (and an unresolved previous close has already been
replaced by the current price before this point, so it cannot occur
here). -/
theorem get_stock_info_change_percent (symbol : String) (t : TickerData) (q : Quote)
    (h : get_stock_info symbol t = .ok q) :
    ∃ c p, resolvePrices t = .ok (c, p) ∧ q.price = c ∧ q.change = c - p ∧
      (p ≠ 0 → q.changePercent = (c - p) / p * 100) ∧
      (p = 0 → q.changePercent = 0) := by
  unfold get_stock_info at h
  rcases hr : resolvePrices t with e | ⟨c, p⟩
  · rw [hr] at h; cases h
  · rw [hr] at h
    rcases hpp : computePrePost t with e | ⟨pre, post⟩
    · rw [hpp] at h; cases h
    · rw [hpp] at h
      injection h with h2
      subst h2
      refine ⟨c, p, rfl, rfl, rfl, ?_, ?_⟩
      · intro hp
        simp only [if_pos hp]
      · intro hp
        simp [hp]

/-- Witness for C1 at `tickerWitness`: current price 12, previous close 10,
change percent 20. -/
theorem get_stock_info_change_percent_witness :
    ∃ c p, resolvePrices tickerWitness = .ok (c, p) ∧ quoteWitness.price = c ∧
      quoteWitness.change = c - p ∧
      (p ≠ 0 → quoteWitness.changePercent = (c - p) / p * 100) ∧
      (p = 0 → quoteWitness.changePercent = 0) :=
  get_stock_info_change_percent "AAPL" tickerWitness quoteWitness (by
    norm_num [get_stock_info, resolvePrices, computePrePost, tickerWitness,
      quoteWitness, pyOrQ, pyOrS, determine_asset_type, Quote.mk.injEq]
    rfl)

/-- C10: the zero sentinel for pre/post-market prices is applied only when
the market state is neither "PRE" nor "POST".  In the PRE session the
post-market price stays absent (`none`); in the POST session the pre-market
price stays absent; only in other sessions are both set to the explicit 0
sentinel. -/
theorem get_stock_info_prepost_sentinel (symbol : String) (t : TickerData) (q : Quote)
    (h : get_stock_info symbol t = .ok q) :
    (t.infoMarketState = some "PRE" →
      q.preMarketPrice = t.infoPreMarketPrice ∧ q.postMarketPrice = none) ∧
    (t.infoMarketState = some "POST" →
      q.preMarketPrice = none ∧ q.postMarketPrice = t.minuteCloses.getLast?) ∧
    (t.infoMarketState ≠ some "PRE" → t.infoMarketState ≠ some "POST" →
      q.preMarketPrice = some 0 ∧ q.postMarketPrice = some 0) := by
  unfold get_stock_info at h
  rcases hr : resolvePrices t with e | ⟨c, p⟩
  · rw [hr] at h; cases h
  · rw [hr] at h
    rcases hpp : computePrePost t with e | ⟨pre, post⟩
    · rw [hpp] at h; cases h
    · rw [hpp] at h
      injection h with h2
      subst h2
      unfold computePrePost at hpp
      by_cases hpre : t.infoMarketState = some "PRE"
      · rw [if_pos hpre] at hpp
        injection hpp with h3
        injection h3 with hA hB
        subst hA
        subst hB
        refine ⟨fun _ => ⟨rfl, rfl⟩, fun hpost => ?_, fun hc _ => absurd hpre hc⟩
        rw [hpre] at hpost
        exact absurd hpost (by decide)
      · rw [if_neg hpre] at hpp
        by_cases hpost : t.infoMarketState = some "POST"
        · rw [if_pos hpost] at hpp
          rcases hlast : t.minuteCloses.getLast? with _ | v
          · rw [hlast] at hpp; cases hpp
          · rw [hlast] at hpp
            injection hpp with h3
            injection h3 with hA hB
            subst hA
            subst hB
            refine ⟨fun hp => absurd hp hpre, fun _ => ⟨rfl, ?_⟩, fun _ hc => absurd hpost hc⟩
            simp [hlast]
        · rw [if_neg hpost] at hpp
          injection hpp with h3
          injection h3 with hA hB
          subst hA
          subst hB
          exact ⟨fun hp => absurd hp hpre, fun hp => absurd hp hpost, fun _ _ => ⟨rfl, rfl⟩⟩

/-- Witness for C10 at `tickerWitnessPre` (PRE session): the pre-market
price passes through and the post-market price stays absent. -/
theorem get_stock_info_prepost_sentinel_witness :
    (tickerWitnessPre.infoMarketState = some "PRE" →
      quoteWitnessPre.preMarketPrice = tickerWitnessPre.infoPreMarketPrice ∧
      quoteWitnessPre.postMarketPrice = none) ∧
    (tickerWitnessPre.infoMarketState = some "POST" →
      quoteWitnessPre.preMarketPrice = none ∧
      quoteWitnessPre.postMarketPrice = tickerWitnessPre.minuteCloses.getLast?) ∧
    (tickerWitnessPre.infoMarketState ≠ some "PRE" →
      tickerWitnessPre.infoMarketState ≠ some "POST" →
      quoteWitnessPre.preMarketPrice = some 0 ∧ quoteWitnessPre.postMarketPrice = some 0) :=
  get_stock_info_prepost_sentinel "AAPL" tickerWitnessPre quoteWitnessPre (by
    norm_num [get_stock_info, resolvePrices, computePrePost, tickerWitnessPre,
      tickerWitness, quoteWitnessPre, quoteWitness, pyOrQ, pyOrS,
      determine_asset_type, Quote.mk.injEq]
    exact ⟨fun h => absurd h (by decide), by decide⟩)

/-- Helper: each per-window SMA series has the length of the input
(windows are ≥ 1). -/
theorem smaWindow_len (closes : List ℚ) (w : ℕ) (hw : 1 ≤ w) :
    (smaWindow closes w).length = closes.length := by
  unfold smaWindow
  split
  · rename_i h
    rw [List.length_append, List.length_replicate, List.length_map, List.length_range]
    omega
  · exact List.length_replicate _ _

/-- C2: for every input series and every window w in [20, 50, 100, 150,
200], `calculate_sma_values` returns under key "sma{w}" a series of the
input's length in which: with fewer than w points every entry is null
(empty input gives the empty series); otherwise entry i is null for
i < w-1 and, for i ≥ w-1, the arithmetic mean of the w consecutive closes
ending at index i.  The function is total, so it has no failure mode. -/
theorem calculate_sma_values_spec (closes : List ℚ) (w : ℕ)
    (hw : w ∈ ([20, 50, 100, 150, 200] : List ℕ)) :
    dictLookup (calculate_sma_values closes) ("sma" ++ toString w) = some (smaWindow closes w) ∧
    (smaWindow closes w).length = closes.length ∧
    (closes = [] → smaWindow closes w = []) ∧
    (closes.length < w → smaWindow closes w = List.replicate closes.length none) ∧
    (w ≤ closes.length → ∀ i, i < closes.length →
      (i < w - 1 → (smaWindow closes w)[i]? = some none) ∧
      (w - 1 ≤ i → (smaWindow closes w)[i]? =
        some (some ((((closes.drop (i + 1 - w)).take w).sum) / (w : ℚ))))) := by
  have hw1 : 1 ≤ w := by fin_cases hw <;> norm_num
  have hins : closes.length < w → smaWindow closes w = List.replicate closes.length none := by
    intro h
    unfold smaWindow
    rw [if_neg (by omega)]
  refine ⟨?_, smaWindow_len closes w hw1, ?_, hins, ?_⟩
  · fin_cases hw <;> rfl
  · intro h
    have : closes.length < w := by simp [h]; omega
    rw [hins this, h]
    rfl
  · intro hlen i hi
    constructor
    · intro hi2
      unfold smaWindow
      rw [if_pos hlen, List.getElem?_append]
      rw [if_pos (by rw [List.length_replicate]; omega)]
      rw [List.getElem?_replicate, if_pos (by omega)]
    · intro hi2
      unfold smaWindow
      rw [if_pos hlen, List.getElem?_append]
      rw [if_neg (by rw [List.length_replicate]; omega)]
      rw [List.length_replicate, List.getElem?_map, List.getElem?_range (by omega)]
      have hidx : i - (w - 1) = i + 1 - w := by omega
      rw [hidx]
      rfl

/-- Witness for C2 on a concrete 20-point series with window 20: entry 0 is
null, entry 19 is the mean of the 20 inputs. -/
theorem calculate_sma_values_spec_witness :
    (smaWindow smaCloses 20)[0]? = some none ∧
    (smaWindow smaCloses 20)[19]? = some (some ((19 : ℚ) / 2)) := by
  have h := calculate_sma_values_spec smaCloses 20 (by decide)
  obtain ⟨-, -, -, -, h5⟩ := h
  have hlen : (20 : ℕ) ≤ smaCloses.length := by decide
  have h0 := (h5 hlen 0 (by decide)).1 (by decide)
  have h19 := (h5 hlen 19 (by decide)).2 (by decide)
  refine ⟨h0, ?_⟩
  rw [h19]
  norm_num [smaCloses]

/-- Helper: association-list lookup misses keys that are not in the list. -/
theorem dictLookup_eq_none {β : Type} (l : List (String × β)) (k : String)
    (h : k ∉ l.map Prod.fst) : dictLookup l k = none := by
  induction l with
  | nil => rfl
  | cons p rest ih =>
    obtain ⟨a, b⟩ := p
    simp only [List.map_cons, List.mem_cons] at h
    push_neg at h
    unfold dictLookup
    rw [if_neg (fun hh => h.1 hh.symm)]
    exact ih h.2

/-- Helper: on a non-empty fetched history, `get_history` returns the
response record built from the reconciled period. -/
theorem get_history_spec (symbol period interval : String)
    (fetchHistory : String → String → List ℚ) (calcSma : Bool)
    (hne : fetchHistory (reconcile period interval).1 interval ≠ []) :
    get_history symbol period interval fetchHistory calcSma =
      .ok { symbol := symbol
            history := fetchHistory (reconcile period interval).1 interval
            period := (reconcile period interval).1
            interval := interval
            adjusted := if (reconcile period interval).2 then some true else none
            requestedPeriod := if (reconcile period interval).2 then some period else none
            actualPeriod := if (reconcile period interval).2 then some (reconcile period interval).1 else none
            message := if (reconcile period interval).2 then
                some ("Adjusted period from " ++ period ++ " to " ++
                  (reconcile period interval).1 ++ " due to " ++ interval ++
                  " interval limitations")
              else none
            sma := if calcSma = true ∧ 0 < (fetchHistory (reconcile period interval).1 interval).length
                   then some (calculate_sma_values (fetchHistory (reconcile period interval).1 interval))
                   else none } := by
  simp only [get_history]
  rw [if_neg hne]

/-- C3: a history request with interval "1m" and period "30d" is
reconciled to the 1-minute cap "7d", and the (non-empty-data) response
carries adjusted = true, requestedPeriod = "30d", actualPeriod = "7d". -/
theorem get_history_1m_30d (symbol : String)
    (fetchHistory : String → String → List ℚ) (calcSma : Bool)
    (hne : fetchHistory "7d" "1m" ≠ []) :
    reconcile "30d" "1m" = ("7d", true) ∧
    ∃ r, get_history symbol "30d" "1m" fetchHistory calcSma = .ok r ∧
      r.period = "7d" ∧ r.adjusted = some true ∧
      r.requestedPeriod = some "30d" ∧ r.actualPeriod = some "7d" := by
  have hrec : reconcile "30d" "1m" = ("7d", true) := by decide
  refine ⟨hrec, ?_⟩
  refine ⟨_, get_history_spec symbol "30d" "1m" fetchHistory calcSma
    (by rw [hrec]; exact hne), ?_, ?_, ?_, ?_⟩ <;> simp [hrec]

/-- Witness for C3 at a concrete one-row fetch. -/
theorem get_history_1m_30d_witness :
    reconcile "30d" "1m" = ("7d", true) ∧
    ∃ r, get_history "A" "30d" "1m" (fun _ _ => [1]) false = .ok r ∧
      r.period = "7d" ∧ r.adjusted = some true ∧
      r.requestedPeriod = some "30d" ∧ r.actualPeriod = some "7d" :=
  get_history_1m_30d "A" (fun _ _ => [1]) false (by decide)

/-- C4 counterexample: the interval "3h" is not in the supported interval
set, yet the reconciliation does not fail with any invalid-interval error:
the request proceeds unchanged and (with non-empty data) succeeds. -/
theorem get_history_unsupported_interval_cex :
    reconcile "30d" "3h" = ("30d", false) ∧
    get_history "AAPL" "30d" "3h" (fun _ _ => [1]) false =
      .ok { symbol := "AAPL", history := [1], period := "30d", interval := "3h",
            adjusted := none, requestedPeriod := none, actualPeriod := none,
            message := none, sma := none } := by
  exact ⟨by decide, by rfl⟩

/-- C4 amended: for every interval token not in the supported interval
set, the reconciliation performs no adjustment and raises no error — the
request proceeds with the unrecognized interval and the original period
(any failure can only arise downstream, from the provider fetch). -/
theorem get_history_unsupported_interval (period interval : String)
    (hni : interval ∉ max_periods.map Prod.fst) :
    reconcile period interval = (period, false) ∧
    ∀ symbol fetchHistory calcSma, fetchHistory period interval ≠ [] →
      ∃ r, get_history symbol period interval fetchHistory calcSma = .ok r ∧
        r.period = period ∧ r.interval = interval ∧ r.adjusted = none ∧
        r.requestedPeriod = none ∧ r.actualPeriod = none := by
  have hrec : reconcile period interval = (period, false) := by
    unfold reconcile
    rw [dictLookup_eq_none _ _ hni]
  refine ⟨hrec, fun symbol fetchHistory calcSma hne => ?_⟩
  refine ⟨_, get_history_spec symbol period interval fetchHistory calcSma
    (by rw [hrec]; exact hne), ?_, ?_, ?_, ?_, ?_⟩ <;> simp [hrec]

/-- Witness for C4 amended at interval "3h". -/
theorem get_history_unsupported_interval_witness :
    reconcile "7d" "3h" = ("7d", false) ∧
    (∃ r, get_history "A" "7d" "3h" (fun _ _ => [1]) false = .ok r ∧
      r.period = "7d" ∧ r.interval = "3h" ∧ r.adjusted = none ∧
      r.requestedPeriod = none ∧ r.actualPeriod = none) := by
  have h := get_history_unsupported_interval "7d" "3h" (by decide)
  exact ⟨h.1, h.2 "A" (fun _ _ => [1]) false (by decide)⟩

/-- C5 counterexample: with interval "1m", the period "max" does not pass
through unchanged — the string-matching fallback forces it to the 1-minute
cap "7d" and records an adjustment. -/
theorem reconcile_max_passthrough_cex :
    reconcile "max" "1m" = ("7d", true) ∧ reconcile "max" "1m" ≠ ("max", false) :=
  ⟨by decide, by decide⟩

/-- C5 amended: a period of "max" or "ytd" passes through reconciliation
unchanged for daily-or-coarser intervals and for "60m"/"1h"; for the
intraday intervals "1m", "2m", "5m", "15m", "30m", "90m" the conservative
string-matching fallback instead forces the period to the interval's cap
and records an adjustment. -/
theorem reconcile_max_ytd (interval period : String)
    (hi : interval ∈ max_periods.map Prod.fst)
    (hp : period ∈ (["max", "ytd"] : List String)) :
    reconcile period interval =
      if interval ∈ (["1m", "2m", "5m", "15m", "30m", "90m"] : List String)
      then ((dictLookup max_periods interval).getD period, true)
      else (period, false) := by
  fin_cases hi <;> fin_cases hp <;> decide

/-- Witness for C5 amended at interval "1m", period "max". -/
theorem reconcile_max_ytd_witness :
    reconcile "max" "1m" =
      if "1m" ∈ (["1m", "2m", "5m", "15m", "30m", "90m"] : List String)
      then ((dictLookup max_periods "1m").getD "max", true)
      else ("max", false) :=
  reconcile_max_ytd "1m" "max" (by decide) (by decide)

/-- Helper: closed form of the portfolio loop — the enriched list is a map
over the input holdings, and the two running totals accumulate the
per-holding success contributions. -/
theorem portfolio_foldl (fetch : String → Except StockError Quote)
    (hs : List Holding) (acc : List EnrichedHolding × ℚ × ℚ) :
    hs.foldl (portfolioStep fetch) acc =
      (acc.1 ++ hs.map (enrichEntry fetch),
       acc.2.1 + (hs.map (dayChangeContrib fetch)).sum,
       acc.2.2 + (hs.map (startContrib fetch)).sum) := by
  induction hs generalizing acc with
  | nil => simp
  | cons h rest ih =>
    rw [List.foldl_cons, ih]
    obtain ⟨l, d, s⟩ := acc
    simp only [portfolioStep, enrichEntry, dayChangeContrib, startContrib,
      List.map_cons, List.sum_cons]
    cases hf : fetch h.symbol with
    | ok q =>
      refine congrArg₂ Prod.mk ?_ (congrArg₂ Prod.mk ?_ ?_)
      · rw [List.append_assoc]
        rfl
      · ring
      · ring
    | error e =>
      refine congrArg₂ Prod.mk ?_ (congrArg₂ Prod.mk ?_ ?_)
      · rw [List.append_assoc]
        rfl
      · ring
      · ring

/-- Helper: both the success and the failure entry keep the DB symbol. -/
theorem enrichEntry_symbol (fetch : String → Except StockError Quote) (h : Holding) :
    (enrichEntry fetch h).symbol = h.symbol := by
  unfold enrichEntry
  cases fetch h.symbol <;> rfl

/-- Helper: the response's holding list is the per-holding enrichment of
the input list, in input order. -/
theorem get_portfolio_holdings (hs : List Holding)
    (fetch : String → Except StockError Quote) :
    (get_portfolio hs fetch).holdings = hs.map (enrichEntry fetch) := by
  unfold get_portfolio
  rw [portfolio_foldl]
  rfl

/-- Helper: the sum of the non-null `value` fields equals the sum of the
per-holding success contributions (failures contribute nothing). -/
theorem filterMap_value_sum (hs : List Holding)
    (fetch : String → Except StockError Quote) :
    (((hs.map (enrichEntry fetch)).filterMap (fun e => e.value))).sum =
      (hs.map (valueContrib fetch)).sum := by
  induction hs with
  | nil => rfl
  | cons h rest ih =>
    cases hf : fetch h.symbol with
    | ok q =>
      simp only [List.map_cons, List.filterMap_cons, List.sum_cons, enrichEntry,
        valueContrib, hf, successEntry]
      rw [List.filterMap_map] at ih
      simp [ih]
    | error e =>
      simp only [List.map_cons, List.filterMap_cons, List.sum_cons, enrichEntry,
        valueContrib, hf, failEntry]
      rw [List.filterMap_map] at ih
      simp [ih]

/-- Helper: the summary block in closed form. -/
theorem get_portfolio_summary (hs : List Holding)
    (fetch : String → Except StockError Quote) :
    (get_portfolio hs fetch).summary.totalValue = (hs.map (valueContrib fetch)).sum ∧
    (get_portfolio hs fetch).summary.dayChange = (hs.map (dayChangeContrib fetch)).sum ∧
    (get_portfolio hs fetch).summary.totalGain =
      (hs.map (valueContrib fetch)).sum - (hs.map (fun h => h.shares * h.averageCost)).sum := by
  unfold get_portfolio
  rw [portfolio_foldl]
  simp only [List.nil_append, zero_add]
  exact ⟨filterMap_value_sum hs fetch, trivial, by rw [filterMap_value_sum hs fetch]⟩

/-- C6: for a portfolio of 3 holdings where exactly one holding's quote
fetch fails (index k), the response contains exactly 3 holdings in input
order; the failing holding is the placeholder entry with every derived
numeric field null and the " (Data Error)" name annotation; each other
holding is the fully valued entry; the summary's totalValue and dayChange
are the sums of the per-holding success contributions (the failing holding
contributes 0, i.e. they sum over only the 2 valued holdings), while
totalGain subtracts the cost basis summed over all 3 holdings. -/
theorem get_portfolio_three_one_failure
    (h0 h1 h2 : Holding) (fetch : String → Except StockError Quote) (k : Fin 3)
    (hfail : ∃ e, fetch (([h0, h1, h2].get k).symbol) = .error e)
    (hok : ∀ i : Fin 3, i ≠ k → ∃ q, fetch (([h0, h1, h2].get i).symbol) = .ok q) :
    (get_portfolio [h0, h1, h2] fetch).holdings.length = 3 ∧
    (get_portfolio [h0, h1, h2] fetch).holdings.map (fun e => e.symbol) =
      [h0.symbol, h1.symbol, h2.symbol] ∧
    (get_portfolio [h0, h1, h2] fetch).holdings[(k : ℕ)]? =
      some (failEntry ([h0, h1, h2].get k)) ∧
    (∀ i : Fin 3, i ≠ k → ∃ q, fetch (([h0, h1, h2].get i).symbol) = .ok q ∧
      (get_portfolio [h0, h1, h2] fetch).holdings[(i : ℕ)]? =
        some (successEntry ([h0, h1, h2].get i) q)) ∧
    valueContrib fetch ([h0, h1, h2].get k) = 0 ∧
    dayChangeContrib fetch ([h0, h1, h2].get k) = 0 ∧
    (get_portfolio [h0, h1, h2] fetch).summary.totalValue =
      valueContrib fetch h0 + valueContrib fetch h1 + valueContrib fetch h2 ∧
    (get_portfolio [h0, h1, h2] fetch).summary.dayChange =
      dayChangeContrib fetch h0 + dayChangeContrib fetch h1 + dayChangeContrib fetch h2 ∧
    (get_portfolio [h0, h1, h2] fetch).summary.totalGain =
      (valueContrib fetch h0 + valueContrib fetch h1 + valueContrib fetch h2) -
        (h0.shares * h0.averageCost + h1.shares * h1.averageCost + h2.shares * h2.averageCost) := by
  obtain ⟨e, he⟩ := hfail
  have hh := get_portfolio_holdings [h0, h1, h2] fetch
  obtain ⟨hv, hd, hg⟩ := get_portfolio_summary [h0, h1, h2] fetch
  refine ⟨?_, ?_, ?_, ?_, ?_, ?_, ?_, ?_, ?_⟩
  · rw [hh]
    simp
  · rw [hh]
    simp [enrichEntry_symbol]
  · rw [hh]
    fin_cases k <;> simp_all [enrichEntry]
  · intro i hi
    obtain ⟨q, hq⟩ := hok i hi
    refine ⟨q, hq, ?_⟩
    rw [hh]
    fin_cases i <;> simp_all [enrichEntry]
  · simp only [valueContrib]
    rw [he]
  · simp only [dayChangeContrib]
    rw [he]
  · rw [hv]
    simp [List.sum_cons]
    ring
  · rw [hd]
    simp [List.sum_cons]
    ring
  · rw [hg]
    simp [List.sum_cons]
    ring

/-- Witness for C6 on the concrete 3-holding portfolio where "B"'s fetch
fails: 3 entries, entry 1 is the null placeholder, totalValue
2*12 + 1*12 = 36 counts only the valued holdings, totalGain subtracts the
full cost basis 2*5 + 3*4 + 1*8 = 30. -/
theorem get_portfolio_three_one_failure_witness :
    (get_portfolio [holdingA, holdingB, holdingC] fetchWitness).holdings.length = 3 ∧
    (get_portfolio [holdingA, holdingB, holdingC] fetchWitness).holdings[1]? =
      some (failEntry holdingB) ∧
    (get_portfolio [holdingA, holdingB, holdingC] fetchWitness).summary.totalValue = 36 ∧
    (get_portfolio [holdingA, holdingB, holdingC] fetchWitness).summary.totalGain = 6 := by
  have h := get_portfolio_three_one_failure holdingA holdingB holdingC fetchWitness 1
      ⟨StockError.noData, rfl⟩
      (fun i hi => by
        fin_cases i
        · exact ⟨quoteWitness, rfl⟩
        · exact absurd rfl hi
        · exact ⟨quoteWitness, rfl⟩)
  obtain ⟨c1, c2, c3, c4, c5, c6, c7, c8, c9⟩ := h
  refine ⟨c1, c3, ?_, ?_⟩
  · rw [c7]
    simp [valueContrib, fetchWitness, quoteWitness, holdingA, holdingB, holdingC]
    norm_num
  · rw [c9]
    simp [valueContrib, fetchWitness, quoteWitness, holdingA, holdingB, holdingC]
    norm_num

/-- Helper: `lastPos` misses symbols that do not occur. -/
theorem lastPos_eq_none (l : List String) (s : String) (h : s ∉ l) :
    lastPos l s = none := by
  induction l with
  | nil => rfl
  | cons a rest ih =>
    simp only [List.mem_cons] at h
    push_neg at h
    simp only [lastPos, ih h.2]
    rw [if_neg (fun hh => h.1 hh.symm)]

/-- Helper: `lastPos` hits symbols that occur. -/
theorem lastPos_isSome_of_mem (l : List String) (s : String) (h : s ∈ l) :
    ∃ j, lastPos l s = some j := by
  induction l with
  | nil => cases h
  | cons a rest ih =>
    rcases List.mem_cons.mp h with h1 | h2
    · subst h1
      cases hlp : lastPos rest s with
      | some j => exact ⟨j + 1, by simp [lastPos, hlp]⟩
      | none => exact ⟨0, by simp [lastPos, hlp]⟩
    · obtain ⟨j, hj⟩ := ih h2
      exact ⟨j + 1, by simp [lastPos, hj]⟩

/-- Helper: on a duplicate-free list, mapping every element to its
`lastPos` index enumerates 0..N-1 in order. -/
theorem lastPos_nodup_map (l : List String) (hnd : l.Nodup) :
    l.map (fun s => (lastPos l s).getD 0) = List.range l.length := by
  induction l with
  | nil => rfl
  | cons a rest ih =>
    rw [List.nodup_cons] at hnd
    obtain ⟨hna, hndr⟩ := hnd
    rw [List.map_cons, List.length_cons, List.range_succ_eq_map]
    have hha : (lastPos (a :: rest) a).getD 0 = 0 := by
      simp [lastPos, lastPos_eq_none rest a hna]
    have hrest : rest.map (fun s => (lastPos (a :: rest) s).getD 0) =
        rest.map (fun s => (lastPos rest s).getD 0 + 1) := by
      refine List.map_congr_left (fun s hs => ?_)
      obtain ⟨j, hj⟩ := lastPos_isSome_of_mem rest s hs
      simp [lastPos, hj]
    rw [hha, hrest]
    have hcomp : rest.map (fun s => (lastPos rest s).getD 0 + 1) =
        (rest.map (fun s => (lastPos rest s).getD 0)).map Nat.succ := by
      rw [List.map_map]
      rfl
    rw [hcomp, ih hndr]

/-- Helper: closed form of the reorder loop — each holding whose symbol
occurs in the request ends at (start index + last occurrence index);
others are untouched. -/
theorem applyReorderAux_eq (syms : List String) (st : List Holding) (k : ℕ) :
    applyReorderAux st syms k =
      st.map (fun h =>
        match lastPos syms h.symbol with
        | some j => { h with position := k + j }
        | none => h) := by
  induction syms generalizing st k with
  | nil =>
    simp [applyReorderAux, lastPos]
  | cons a rest ih =>
    simp only [applyReorderAux]
    rw [ih, List.map_map]
    congr 1
    funext h
    simp only [Function.comp_apply]
    have hs : ((if h.symbol = a then { h with position := k } else h) : Holding).symbol
        = h.symbol := by
      split <;> rfl
    rw [hs]
    cases hlp : lastPos rest h.symbol with
    | some j =>
      simp only [lastPos, hlp]
      have hkj : k + 1 + j = k + (j + 1) := by omega
      split <;> simp [hkj]
    | none =>
      simp only [lastPos, hlp]
      by_cases hsym : h.symbol = a
      · rw [if_pos hsym, if_pos hsym.symm]
        rfl
      · rw [if_neg hsym, if_neg (fun hh => hsym hh.symm)]

/-- Helper: renumbering assigns positions 0..N-1 in list order. -/
theorem renumber_positions (hs : List Holding) :
    (renumber hs).map (fun h => h.position) = List.range hs.length := by
  unfold renumber
  rw [List.map_map]
  have hcomp : ((fun h => h.position) ∘ fun p : ℕ × Holding => { p.2 with position := p.1 })
      = (Prod.fst : ℕ × Holding → ℕ) := by
    funext p
    rfl
  rw [hcomp, List.enum_map_fst]

/-- Helper: renumbering changes only the position column. -/
theorem renumber_fields (hs : List Holding) :
    (renumber hs).map (fun h => (h.symbol, h.shares, h.averageCost)) =
      hs.map (fun h => (h.symbol, h.shares, h.averageCost)) := by
  unfold renumber
  rw [List.map_map]
  have hcomp : ((fun h => (h.symbol, h.shares, h.averageCost)) ∘
        fun p : ℕ × Holding => { p.2 with position := p.1 })
      = (fun h => (h.symbol, h.shares, h.averageCost)) ∘ (Prod.snd : ℕ × Holding → Holding) := by
    funext p
    rfl
  rw [hcomp, ← List.map_map, List.enum_map_snd]

/-- Helper: renumbering preserves length. -/
theorem renumber_length (hs : List Holding) : (renumber hs).length = hs.length := by
  unfold renumber
  rw [List.length_map, List.enum_length]

/-- Helper: a reorder request that lists exactly the owner's (pairwise
distinct) symbols, each once, leaves the positions a permutation of
0..N-1. -/
theorem applyReorder_positions (st : List Holding) (syms : List String)
    (hnd : (st.map (fun h => h.symbol)).Nodup)
    (hperm : syms.Perm (st.map (fun h => h.symbol))) :
    ((applyReorder st syms).map (fun h => h.position)).Perm (List.range st.length) := by
  have hsnd : syms.Nodup := hperm.nodup_iff.mpr hnd
  rw [applyReorder, applyReorderAux_eq, List.map_map]
  have hpt : ∀ h ∈ st,
      (((fun h => h.position) ∘ fun h =>
        match lastPos syms h.symbol with
        | some j => { h with position := 0 + j }
        | none => h) h) = (fun s => (lastPos syms s).getD 0) h.symbol := by
    intro h hh
    have hmem : h.symbol ∈ syms := by
      rw [hperm.mem_iff]
      exact List.mem_map_of_mem _ hh
    obtain ⟨j, hj⟩ := lastPos_isSome_of_mem syms h.symbol hmem
    simp [hj]
  rw [List.map_congr_left hpt]
  have h1 : st.map (fun h => (fun s => (lastPos syms s).getD 0) h.symbol) =
      (st.map (fun h => h.symbol)).map (fun s => (lastPos syms s).getD 0) := by
    rw [List.map_map]
    rfl
  rw [h1]
  have h2 := List.Perm.map (fun s => (lastPos syms s).getD 0) hperm.symm
  refine h2.symm.symm.trans ?_
  rw [lastPos_nodup_map syms hsnd, hperm.length_eq, List.length_map]

/-- C7 counterexample: a reorder request that omits one of the owner's
symbols leaves the positions non-contiguous — reordering ["B"] over the
holdings A (position 0) and B (position 1) yields positions [0, 0], not a
dense 0..1. -/
theorem holdings_positions_dense_cex :
    ¬ positionsContiguous (applyReorder [holdingA, holdingB] ["B"]) := by
  unfold positionsContiguous
  decide

/-- C7 amended: after any delete, the remaining holdings are renumbered to
a dense 0..N-1 sequence preserving their previous position order (the
claim's delete half holds unconditionally); after a reorder the positions
form 0..N-1 only when the request lists exactly the owner's symbols, each
once — a request that omits or adds symbols can leave positions
non-contiguous. -/
theorem holdings_positions_dense :
    (∀ store sym res, delete_holding store sym = .ok res →
      res.map (fun h => h.position) = List.range res.length ∧
      res.map (fun h => (h.symbol, h.shares, h.averageCost)) =
        (orderByPosition (store.filter (fun h => h.symbol ≠ sym))).map
          (fun h => (h.symbol, h.shares, h.averageCost))) ∧
    (∀ store syms, (store.map (fun h => h.symbol)).Nodup →
      syms.Perm (store.map (fun h => h.symbol)) →
      ((applyReorder store syms).map (fun h => h.position)).Perm
        (List.range store.length)) := by
  constructor
  · intro store sym res hdel
    unfold delete_holding at hdel
    by_cases hne : store.filter (fun h => h.symbol = sym) = []
    · rw [if_pos hne] at hdel
      cases hdel
    · rw [if_neg hne] at hdel
      injection hdel with h2
      subst h2
      constructor
      · rw [renumber_positions, renumber_length]
      · exact renumber_fields _
  · intro store syms hnd hperm
    exact applyReorder_positions store syms hnd hperm

/-- Witness for C7 amended: deleting "A" from [A, B] renumbers B to
position 0; reordering with the full request ["B", "A"] keeps positions a
permutation of 0..1. -/
theorem holdings_positions_dense_witness :
    (([{ holdingB with position := 0 }] : List Holding).map (fun h => h.position) =
        List.range ([{ holdingB with position := 0 }] : List Holding).length ∧
      ([{ holdingB with position := 0 }] : List Holding).map
          (fun h => (h.symbol, h.shares, h.averageCost)) =
        (orderByPosition ([holdingA, holdingB].filter (fun h => h.symbol ≠ "A"))).map
          (fun h => (h.symbol, h.shares, h.averageCost))) ∧
    ((applyReorder [holdingA, holdingB] ["B", "A"]).map (fun h => h.position)).Perm
      (List.range ([holdingA, holdingB] : List Holding).length) := by
  have h := holdings_positions_dense
  refine ⟨h.1 [holdingA, holdingB] "A" [{ holdingB with position := 0 }] (by rfl), ?_⟩
  exact h.2 [holdingA, holdingB] ["B", "A"] (by decide) (by decide)

/-- Helper: a list with duplicates strictly shrinks under dedup — the
`len({...}) != len(list)` test of the upload endpoint detects exactly
non-Nodup inputs. -/
theorem dedup_length_ne (l : List String) (h : ¬ l.Nodup) :
    l.dedup.length ≠ l.length := by
  intro hlen
  have heq := (List.dedup_sublist l).eq_of_length hlen
  exact h (heq ▸ List.nodup_dedup l)

/-- C8: a bulk upload whose input contains two holdings with the same
symbol is rejected with the duplicate-symbol error before any persistence
mutation, so the owner's stored holdings are unchanged. -/
theorem upload_rejects_duplicates (store : List Holding) (upload : List HoldingCreate)
    (h : ¬ (upload.map (fun hc => hc.symbol)).Nodup) :
    upload_portfolio upload = .error .duplicateSymbols ∧
    uploadStep store upload = store := by
  have hne : upload ≠ [] := by
    intro he
    subst he
    exact h List.nodup_nil
  have hd := dedup_length_ne _ h
  rw [List.length_map] at hd
  have herr : upload_portfolio upload = .error .duplicateSymbols := by
    unfold upload_portfolio
    rw [if_neg hne, if_pos hd]
  refine ⟨herr, ?_⟩
  unfold uploadStep
  rw [herr]

/-- Witness for C8: uploading two rows for symbol "A" over a one-holding
store is rejected and leaves the store as it was. -/
theorem upload_rejects_duplicates_witness :
    upload_portfolio [⟨"A", 1, 1⟩, ⟨"A", 2, 2⟩] = .error .duplicateSymbols ∧
    uploadStep [holdingA] [⟨"A", 1, 1⟩, ⟨"A", 2, 2⟩] = [holdingA] :=
  upload_rejects_duplicates [holdingA] [⟨"A", 1, 1⟩, ⟨"A", 2, 2⟩] (by decide)

/-- C9: uploading a duplicate-free non-empty list of N holdings succeeds,
stores them with positions 0..N-1 in upload order, and reading the
portfolio back (the position-ordered DB query feeding `get_portfolio`)
yields exactly those holdings in upload order. -/
theorem upload_roundtrip (upload : List HoldingCreate)
    (hne : upload ≠ []) (hnd : (upload.map (fun hc => hc.symbol)).Nodup) :
    ∃ ns, upload_portfolio upload = .ok ns ∧
      orderByPosition ns = ns ∧
      ns.map (fun h => h.symbol) = upload.map (fun hc => hc.symbol) ∧
      ns.map (fun h => h.shares) = upload.map (fun hc => hc.shares) ∧
      ns.map (fun h => h.averageCost) = upload.map (fun hc => hc.averageCost) ∧
      ns.map (fun h => h.position) = List.range upload.length ∧
      ∀ fetch, (get_portfolio ns fetch).holdings.map (fun e => e.symbol) =
        upload.map (fun hc => hc.symbol) := by
  have hdl : ((upload.map (fun hc => hc.symbol)).dedup).length = upload.length := by
    rw [List.dedup_eq_self.mpr hnd, List.length_map]
  have hpos : (upload.enum.map (fun p =>
      ({ symbol := p.2.symbol, shares := p.2.shares,
         averageCost := p.2.averageCost, position := p.1 } : Holding))).map
        (fun h => h.position) = List.range upload.length := by
    rw [List.map_map]
    have hcomp : ((fun h : Holding => h.position) ∘ fun p : ℕ × HoldingCreate =>
          ({ symbol := p.2.symbol, shares := p.2.shares,
             averageCost := p.2.averageCost, position := p.1 } : Holding))
        = (Prod.fst : ℕ × HoldingCreate → ℕ) := by
      funext p
      rfl
    rw [hcomp, List.enum_map_fst]
  have hsym : (upload.enum.map (fun p =>
      ({ symbol := p.2.symbol, shares := p.2.shares,
         averageCost := p.2.averageCost, position := p.1 } : Holding))).map
        (fun h => h.symbol) = upload.map (fun hc => hc.symbol) := by
    rw [List.map_map]
    have hcomp : ((fun h : Holding => h.symbol) ∘ fun p : ℕ × HoldingCreate =>
          ({ symbol := p.2.symbol, shares := p.2.shares,
             averageCost := p.2.averageCost, position := p.1 } : Holding))
        = (fun hc : HoldingCreate => hc.symbol) ∘ Prod.snd := by
      funext p
      rfl
    rw [hcomp, ← List.map_map, List.enum_map_snd]
  refine ⟨upload.enum.map (fun p =>
      { symbol := p.2.symbol, shares := p.2.shares,
        averageCost := p.2.averageCost, position := p.1 }),
    ?_, ?_, hsym, ?_, ?_, hpos, ?_⟩
  case refine_1 =>
    unfold upload_portfolio
    rw [if_neg hne, if_neg (fun hc => hc hdl)]
  case refine_2 =>
    have hsorted : List.Sorted (fun a b : Holding => a.position ≤ b.position)
        (upload.enum.map (fun p =>
          ({ symbol := p.2.symbol, shares := p.2.shares,
             averageCost := p.2.averageCost, position := p.1 } : Holding))) :=
      List.pairwise_map.mp (by
        rw [hpos]
        exact (List.pairwise_lt_range _).imp (fun hab => le_of_lt hab))
    exact List.Sorted.insertionSort_eq hsorted
  case refine_3 =>
    rw [List.map_map]
    have hcomp : ((fun h : Holding => h.shares) ∘ fun p : ℕ × HoldingCreate =>
          ({ symbol := p.2.symbol, shares := p.2.shares,
             averageCost := p.2.averageCost, position := p.1 } : Holding))
        = (fun hc : HoldingCreate => hc.shares) ∘ Prod.snd := by
      funext p
      rfl
    rw [hcomp, ← List.map_map, List.enum_map_snd]
  case refine_4 =>
    rw [List.map_map]
    have hcomp : ((fun h : Holding => h.averageCost) ∘ fun p : ℕ × HoldingCreate =>
          ({ symbol := p.2.symbol, shares := p.2.shares,
             averageCost := p.2.averageCost, position := p.1 } : Holding))
        = (fun hc : HoldingCreate => hc.averageCost) ∘ Prod.snd := by
      funext p
      rfl
    rw [hcomp, ← List.map_map, List.enum_map_snd]
  case refine_5 =>
    intro fetch
    rw [get_portfolio_holdings, List.map_map]
    exact (List.map_congr_left (fun h _ => enrichEntry_symbol fetch h)).trans hsym

/-- Witness for C9: uploading the two-row portfolio [("A", 2, 5),
("B", 3, 4)] round-trips with positions 0 and 1. -/
theorem upload_roundtrip_witness :
    ∃ ns, upload_portfolio [⟨"A", 2, 5⟩, ⟨"B", 3, 4⟩] = .ok ns ∧
      orderByPosition ns = ns ∧
      ns.map (fun h => h.symbol) =
        ([⟨"A", 2, 5⟩, ⟨"B", 3, 4⟩] : List HoldingCreate).map (fun hc => hc.symbol) ∧
      ns.map (fun h => h.shares) =
        ([⟨"A", 2, 5⟩, ⟨"B", 3, 4⟩] : List HoldingCreate).map (fun hc => hc.shares) ∧
      ns.map (fun h => h.averageCost) =
        ([⟨"A", 2, 5⟩, ⟨"B", 3, 4⟩] : List HoldingCreate).map (fun hc => hc.averageCost) ∧
      ns.map (fun h => h.position) =
        List.range ([⟨"A", 2, 5⟩, ⟨"B", 3, 4⟩] : List HoldingCreate).length ∧
      ∀ fetch, (get_portfolio ns fetch).holdings.map (fun e => e.symbol) =
        ([⟨"A", 2, 5⟩, ⟨"B", 3, 4⟩] : List HoldingCreate).map (fun hc => hc.symbol) :=
  upload_roundtrip [⟨"A", 2, 5⟩, ⟨"B", 3, 4⟩] (by decide) (by decide)
